import Mathlib

/-
Verification of the notation-resolution and move-legality chess engine
(package chess: game.go / game_test.go of jshiv/bubblechess).

The board is an 8 by 8 array of optional pieces (array row 0 = the black
back rank, array row 7 = the white back rank), plus six castling bookkeeping
flags.  Go integers are modelled as Int; the Go array accesses, all of which
are index-guarded in the source, are modelled by the total lookups getSq and
setSq whose out-of-range branch is proved unreachable on the public paths.
Go strings are modelled through their character lists (all tokens of
interest are ASCII, where Go byte indexing and character indexing agree).
-/

set_option maxRecDepth 4000

namespace Chess

/-- Piece kinds, exactly the Go PieceType enumeration. -/
inductive PieceType where
  | Pawn
  | Rook
  | Knight
  | Bishop
  | Queen
  | King
deriving DecidableEq

/-- A chess piece: colour flag (true = white) and kind.  Go field Type is
called ptype here because Type is reserved in Lean. -/
structure Piece where
  White : Bool
  ptype : PieceType
deriving DecidableEq

/-- The Go Board struct: 8 by 8 squares of optional pieces plus the six
castling-rights flags. -/
structure Board where
  Squares : Fin 8 → Fin 8 → Option Piece
  WhiteKingMoved : Bool
  WhiteRookKingsideMoved : Bool
  WhiteRookQueensideMoved : Bool
  BlackKingMoved : Bool
  BlackRookKingsideMoved : Bool
  BlackRookQueensideMoved : Bool

/-- The fields of the Go ChessGame struct that the engine reads or writes;
the TUI-only fields (selectedSquare, moveInput, gameState, displayMode,
menuSelection) are out of scope per the spec and never touch the engine. -/
structure ChessGame where
  board : Board
  currentPlayer : Bool
  status : String

/-- Total model of the Go read g.board.Squares[r][c].  Every access in the
source is guarded so that 0 <= r,c <= 7; the else-branch is unreachable on
the public paths (claim C10). -/
def getSq (b : Board) (r c : Int) : Option Piece :=
  if h : 0 ≤ r ∧ r < 8 ∧ 0 ≤ c ∧ c < 8 then
    b.Squares ⟨r.toNat, by omega⟩ ⟨c.toNat, by omega⟩
  else none

/-- Total model of the Go write g.board.Squares[r][c] = p. -/
def setSq (b : Board) (r c : Int) (p : Option Piece) : Board :=
  if h : 0 ≤ r ∧ r < 8 ∧ 0 ≤ c ∧ c < 8 then
    { b with Squares := fun i j =>
        if i = (⟨r.toNat, by omega⟩ : Fin 8) ∧ j = (⟨c.toNat, by omega⟩ : Fin 8) then p
        else b.Squares i j }
  else b

/-- The back-rank piece order of Board.setupPieces. -/
def pieceRow : List PieceType :=
  [PieceType.Rook, PieceType.Knight, PieceType.Bishop, PieceType.Queen,
   PieceType.King, PieceType.Bishop, PieceType.Knight, PieceType.Rook]

/-- The square contents produced by Board.setupPieces: black pawns on array
row 1, white pawns on array row 6, black back rank on row 0, white back rank
on row 7. -/
def setupSquares : Fin 8 → Fin 8 → Option Piece := fun i j =>
  if i.val = 1 then some { White := false, ptype := PieceType.Pawn }
  else if i.val = 6 then some { White := true, ptype := PieceType.Pawn }
  else if i.val = 0 then some { White := false, ptype := pieceRow.getD j.val PieceType.Rook }
  else if i.val = 7 then some { White := true, ptype := pieceRow.getD j.val PieceType.Rook }
  else none

/-- NewBoard: fresh squares, all castling flags false. -/
def NewBoard : Board :=
  { Squares := setupSquares
    WhiteKingMoved := false
    WhiteRookKingsideMoved := false
    WhiteRookQueensideMoved := false
    BlackKingMoved := false
    BlackRookKingsideMoved := false
    BlackRookQueensideMoved := false }

/-- NewChessGame: initial board, White to move.  The Go initial status names
White; the apostrophe of the Go literal is not reproducible here and the
status text plays no role in any claim. -/
def NewChessGame : ChessGame :=
  { board := NewBoard, currentPlayer := true, status := "White to move" }

/-- The Go helper abs on ints. -/
def goAbs (x : Int) : Int := if x < 0 then -x else x

/-- Difference of two characters as Go byte arithmetic, e.g. move[0]-'a'. -/
def charSub (a b : Char) : Int := (a.toNat : Int) - (b.toNat : Int)

/-- The candidate test of the findPiece scan: the square holds a piece of
the requested kind and colour. -/
def pieceAt (b : Board) (pt : PieceType) (isWhite : Bool) (rc : Int × Int) : Bool :=
  (getSq b rc.1 rc.2).any fun p => decide (p.ptype = pt ∧ p.White = isWhite)

/-- The candidate list built by the nested loops of findPiece, translated
loop-for-loop: row-major accumulation by appending. -/
def findCandidates (b : Board) (pt : PieceType) (isWhite : Bool) : List (Int × Int) :=
  (List.range 8).foldl
    (fun acc (i : Nat) =>
      (List.range 8).foldl
        (fun acc2 (j : Nat) =>
          if pieceAt b pt isWhite ((i : Int), (j : Int)) then acc2 ++ [((i : Int), (j : Int))]
          else acc2)
        acc)
    []

/-- All 64 squares in the row-major order of the findPiece scan, used by the
claim-side characterisation of the candidate list. -/
def scanSquares : List (Int × Int) :=
  (List.range 8).flatMap fun i => (List.range 8).map fun (j : Nat) => ((i : Int), (j : Int))

/-- Claim-side formulation of the candidate list: the row-major square list
filtered by the kind/colour test. -/
def candidatesSpec (b : Board) (pt : PieceType) (isWhite : Bool) : List (Int × Int) :=
  scanSquares.filter (pieceAt b pt isWhite)

/-- canDisambiguate: tests the character at index 1 of the move string
against a candidate square; a file letter is compared with the column, a
rank digit with the array row, anything else (including a too-short string)
matches. -/
def canDisambiguate (row col : Int) (move : String) : Bool :=
  if 2 ≤ move.data.length then
    if 'a' ≤ move.data.getD 1 ' ' ∧ move.data.getD 1 ' ' ≤ 'h' then
      decide (charSub (move.data.getD 1 ' ') 'a' = col)
    else if '1' ≤ move.data.getD 1 ' ' ∧ move.data.getD 1 ' ' ≤ '8' then
      decide (charSub (move.data.getD 1 ' ') '1' = row)
    else true
  else true

/-- findPiece: scans the 64 squares row-major for (kind, colour) matches;
returns (0,0,false) with no candidate, the unique candidate if there is one,
otherwise the first candidate passing canDisambiguate, falling back to the
first candidate overall. -/
def findPiece (b : Board) (pt : PieceType) (isWhite : Bool) (move : String) :
    Int × Int × Bool :=
  match findCandidates b pt isWhite with
  | [] => (0, 0, false)
  | c :: rest =>
    if rest.isEmpty then (c.1, c.2, true)
    else
      match (c :: rest).find? (fun cand => canDisambiguate cand.1 cand.2 move) with
      | some cand => (cand.1, cand.2, true)
      | none => (c.1, c.2, true)

/-- parseCastling: locates the king of the side to move and offsets its
column by two.  (Unreachable from the public entry points: isValidMove and
executeMove intercept the four castling tokens first.) -/
def parseCastling (b : Board) (currentPlayer : Bool) (kingside : Bool) :
    Except String (Int × Int × Int × Int) :=
  match findPiece b PieceType.King currentPlayer "" with
  | (fromRow, fromCol, found) =>
    if found = false then Except.error "king not found"
    else if kingside then Except.ok (fromRow, fromCol, fromRow, fromCol + 2)
    else Except.ok (fromRow, fromCol, fromRow, fromCol - 2)

/-- The piece-letter switch at the head of a short-notation token: an
unrecognised first character means a pawn move. -/
def pieceTypeOf (ch : Char) : PieceType :=
  match ch with
  | 'K' => PieceType.King
  | 'Q' => PieceType.Queen
  | 'R' => PieceType.Rook
  | 'B' => PieceType.Bishop
  | 'N' => PieceType.Knight
  | _ => PieceType.Pawn

/-- The net effect of the Go destStart loop: it descends over the whole
string assigning destStart = i - 1 at every index i holding a plus or hash
sign, so the final value is (smallest such index) - 1 when one exists, and
length - 1 otherwise. -/
def destStartRaw (s : List Char) : Int :=
  match s.findIdx? (fun ch => decide (ch = '+' ∨ ch = '#')) with
  | some i => (i : Int) - 1
  | none => (s.length : Int) - 1

/-- destStart after the promotion-marker adjustment: when the character
before it is an equals sign (and destStart is at least 2), step back over
the two promotion characters. -/
def destStartAdj (s : List Char) : Int :=
  if 2 ≤ destStartRaw s ∧ s.getD (destStartRaw s - 1).toNat ' ' = '=' then destStartRaw s - 2
  else destStartRaw s

/-- The short-notation parser.  The destination is taken from the last two
characters before any check/mate/promotion suffix; its rank digit is decoded
with the 7 - (rank - 1) flip to array coordinates.  The two-character
destination slice always has length 2; the dead length check of the source
is kept.  The Go loop computing destStart descends over the whole string,
so its final value is (smallest index of a plus or hash sign) - 1 when one
occurs, else length - 1, which is how it is written here. -/
def parseShortNotation (b : Board) (currentPlayer : Bool) (move : String) :
    Except String (Int × Int × Int × Int) :=
  if move.data.length < 2 then Except.error "move too short"
  else if move = "O-O" ∨ move = "0-0" then parseCastling b currentPlayer true
  else if move = "O-O-O" ∨ move = "0-0-0" then parseCastling b currentPlayer false
  else
    match findPiece b (pieceTypeOf (move.data.getD 0 ' ')) currentPlayer move with
    | (fromRow, fromCol, found) =>
      if found = false then Except.error "piece not found"
      else if destStartAdj move.data < 2 then Except.error "invalid destination"
      else if ([move.data.getD (destStartAdj move.data - 1).toNat ' ',
                move.data.getD (destStartAdj move.data).toNat ' '] : List Char).length ≠ 2 then
        Except.error "invalid destination format"
      else if charSub (move.data.getD (destStartAdj move.data - 1).toNat ' ') 'a' < 0 ∨
              7 < charSub (move.data.getD (destStartAdj move.data - 1).toNat ' ') 'a' ∨
              charSub (move.data.getD (destStartAdj move.data).toNat ' ') '1' < 0 ∨
              7 < charSub (move.data.getD (destStartAdj move.data).toNat ' ') '1' then
        Except.error "invalid destination coordinates"
      else
        Except.ok (fromRow, fromCol,
          7 - charSub (move.data.getD (destStartAdj move.data).toNat ' ') '1',
          charSub (move.data.getD (destStartAdj move.data - 1).toNat ' ') 'a')

/-- parseMove: a 4-character token whose decoded coordinates are all in
range is long algebraic notation, decoded as rank - 1 with no row flip
(origin and destination alike); everything else goes to the short parser. -/
def parseMove (b : Board) (currentPlayer : Bool) (move : String) :
    Except String (Int × Int × Int × Int) :=
  if move.data.length = 4 then
    if 0 ≤ charSub (move.data.getD 0 ' ') 'a' ∧ charSub (move.data.getD 0 ' ') 'a' ≤ 7 ∧
       0 ≤ charSub (move.data.getD 1 ' ') '1' ∧ charSub (move.data.getD 1 ' ') '1' ≤ 7 ∧
       0 ≤ charSub (move.data.getD 2 ' ') 'a' ∧ charSub (move.data.getD 2 ' ') 'a' ≤ 7 ∧
       0 ≤ charSub (move.data.getD 3 ' ') '1' ∧ charSub (move.data.getD 3 ' ') '1' ≤ 7 then
      Except.ok (charSub (move.data.getD 1 ' ') '1', charSub (move.data.getD 0 ' ') 'a',
        charSub (move.data.getD 3 ' ') '1', charSub (move.data.getD 2 ' ') 'a')
    else parseShortNotation b currentPlayer move
  else parseShortNotation b currentPlayer move

/-- The guard shared by isValidMove and executeMove recognising the four
castling tokens. -/
def castleTok (move : String) : Bool :=
  decide (move = "O-O" ∨ move = "0-0" ∨ move = "O-O-O" ∨ move = "0-0-0")

/-- Whether a parse result is the error case (Go: err != nil). -/
def isErr : Except String (Int × Int × Int × Int) → Bool
  | Except.error _ => true
  | Except.ok _ => false

/-- isValidCastling: pure castling-rights and empty-path test, by colour to
move and side. -/
def isValidCastling (b : Board) (currentPlayer : Bool) (move : String) : Bool :=
  let isKingside : Bool := decide (move = "O-O" ∨ move = "0-0")
  if currentPlayer then
    if isKingside then
      if b.WhiteKingMoved || b.WhiteRookKingsideMoved then false
      else if (getSq b 7 5).isSome || (getSq b 7 6).isSome then false
      else true
    else
      if b.WhiteKingMoved || b.WhiteRookQueensideMoved then false
      else if (getSq b 7 1).isSome || (getSq b 7 2).isSome ||
              (getSq b 7 3).isSome then false
      else true
  else
    if isKingside then
      if b.BlackKingMoved || b.BlackRookKingsideMoved then false
      else if (getSq b 0 5).isSome || (getSq b 0 6).isSome then false
      else true
    else
      if b.BlackKingMoved || b.BlackRookQueensideMoved then false
      else if (getSq b 0 1).isSome || (getSq b 0 2).isSome ||
              (getSq b 0 3).isSome then false
      else true

/-- isValidMove: castling tokens go to isValidCastling; otherwise parse,
then source-occupancy, turn and self-capture preconditions, then the
per-kind simplified movement rules of the source. -/
def isValidMove (g : ChessGame) (move : String) : Bool :=
  if castleTok move then isValidCastling g.board g.currentPlayer move
  else
    match parseMove g.board g.currentPlayer move with
    | Except.error _ => false
    | Except.ok (fromRow, fromCol, toRow, toCol) =>
      match getSq g.board fromRow fromCol with
      | none => false
      | some piece =>
        if piece.White ≠ g.currentPlayer then false
        else if (getSq g.board toRow toCol).any (fun q => q.White == g.currentPlayer) then
          false
        else
          match piece.ptype with
          | PieceType.Pawn =>
            if fromCol = toCol then
              match getSq g.board toRow toCol with
              | none =>
                let pathClear := true
                let pathClear :=
                  if g.currentPlayer ∧ fromRow = 6 ∧ toRow = 4 then
                    if (getSq g.board 5 fromCol).isSome then false else pathClear
                  else pathClear
                let pathClear :=
                  if ¬ g.currentPlayer ∧ fromRow = 1 ∧ toRow = 3 then
                    if (getSq g.board 2 fromCol).isSome then false else pathClear
                  else pathClear
                if pathClear then
                  if (g.currentPlayer ∧ (toRow = fromRow - 1 ∨ toRow = fromRow - 2)) ∨
                     (¬ g.currentPlayer ∧ (toRow = fromRow + 1 ∨ toRow = fromRow + 2)) then
                    true
                  else false
                else false
              | some _ => false
            else if goAbs (fromCol - toCol) = 1 then
              match getSq g.board toRow toCol with
              | some q =>
                if q.White ≠ g.currentPlayer then
                  if (g.currentPlayer ∧ toRow = fromRow - 1) ∨
                     (¬ g.currentPlayer ∧ toRow = fromRow + 1) then true
                  else false
                else false
              | none => false
            else false
          | PieceType.King =>
            if goAbs (fromRow - toRow) ≤ 1 ∧ goAbs (fromCol - toCol) ≤ 1 then true else false
          | PieceType.Knight =>
            let rowDiff := goAbs (fromRow - toRow)
            let colDiff := goAbs (fromCol - toCol)
            decide ((rowDiff = 2 ∧ colDiff = 1) ∨ (rowDiff = 1 ∧ colDiff = 2))
          | PieceType.Bishop =>
            if goAbs (fromRow - toRow) = goAbs (fromCol - toCol) then true else false
          | PieceType.Rook =>
            if fromRow = toRow ∨ fromCol = toCol then true else false
          | PieceType.Queen => true

/-- trackPieceMovement: the Go method mutates only castling-flag fields of
the board, so it is modelled on Board.  Note that it inspects the piece at
the DESTINATION square (executeMove calls it before moving anything), and
keys the rook flags on the origin column. -/
def trackPieceMovement (b : Board) (fromRow fromCol toRow toCol : Int) : Board :=
  match getSq b toRow toCol with
  | none => b
  | some piece =>
    let b1 :=
      if piece.ptype = PieceType.King then
        if piece.White then { b with WhiteKingMoved := true }
        else { b with BlackKingMoved := true }
      else b
    if piece.ptype = PieceType.Rook then
      if piece.White then
        if fromCol = 0 then { b1 with WhiteRookQueensideMoved := true }
        else if fromCol = 7 then { b1 with WhiteRookKingsideMoved := true }
        else b1
      else
        if fromCol = 0 then { b1 with BlackRookQueensideMoved := true }
        else if fromCol = 7 then { b1 with BlackRookKingsideMoved := true }
        else b1
    else b1

/-- executeCastling: re-checks the rights and path conditions (defensively,
setting a status message and leaving the state untouched on failure), then
moves king and rook, sets both flags and toggles the player.  The Go player
toggle at the end of the function runs exactly on the non-early-return
paths, hence it appears in each success branch here. -/
def executeCastling (g : ChessGame) (move : String) : ChessGame :=
  let isKingside : Bool := decide (move = "O-O" ∨ move = "0-0")
  if g.currentPlayer then
    if isKingside then
      if g.board.WhiteKingMoved || g.board.WhiteRookKingsideMoved then
        { g with status := "Cannot castle: King or rook has moved" }
      else if (getSq g.board 7 5).isSome || (getSq g.board 7 6).isSome then
        { g with status := "Cannot castle: Squares between king and rook are occupied" }
      else
        let b1 := setSq g.board 7 6 (getSq g.board 7 4)
        let b2 := setSq b1 7 4 none
        let b3 := setSq b2 7 5 (getSq b2 7 7)
        let b4 := setSq b3 7 7 none
        { g with
          board := { b4 with WhiteKingMoved := true, WhiteRookKingsideMoved := true }
          currentPlayer := !g.currentPlayer }
    else
      if g.board.WhiteKingMoved || g.board.WhiteRookQueensideMoved then
        { g with status := "Cannot castle: King or rook has moved" }
      else if (getSq g.board 7 1).isSome || (getSq g.board 7 2).isSome ||
              (getSq g.board 7 3).isSome then
        { g with status := "Cannot castle: Squares between king and rook are occupied" }
      else
        let b1 := setSq g.board 7 2 (getSq g.board 7 4)
        let b2 := setSq b1 7 4 none
        let b3 := setSq b2 7 3 (getSq b2 7 0)
        let b4 := setSq b3 7 0 none
        { g with
          board := { b4 with WhiteKingMoved := true, WhiteRookQueensideMoved := true }
          currentPlayer := !g.currentPlayer }
  else
    if isKingside then
      if g.board.BlackKingMoved || g.board.BlackRookKingsideMoved then
        { g with status := "Cannot castle: King or rook has moved" }
      else if (getSq g.board 0 5).isSome || (getSq g.board 0 6).isSome then
        { g with status := "Cannot castle: Squares between king and rook are occupied" }
      else
        let b1 := setSq g.board 0 6 (getSq g.board 0 4)
        let b2 := setSq b1 0 4 none
        let b3 := setSq b2 0 5 (getSq b2 0 7)
        let b4 := setSq b3 0 7 none
        { g with
          board := { b4 with BlackKingMoved := true, BlackRookKingsideMoved := true }
          currentPlayer := !g.currentPlayer }
    else
      if g.board.BlackKingMoved || g.board.BlackRookQueensideMoved then
        { g with status := "Cannot castle: King or rook has moved" }
      else if (getSq g.board 0 1).isSome || (getSq g.board 0 2).isSome ||
              (getSq g.board 0 3).isSome then
        { g with status := "Cannot castle: Squares between king and rook are occupied" }
      else
        let b1 := setSq g.board 0 2 (getSq g.board 0 4)
        let b2 := setSq b1 0 4 none
        let b3 := setSq b2 0 3 (getSq b2 0 0)
        let b4 := setSq b3 0 0 none
        { g with
          board := { b4 with BlackKingMoved := true, BlackRookQueensideMoved := true }
          currentPlayer := !g.currentPlayer }

/-- executeMove: castling tokens go to executeCastling; a parse failure only
sets the status; otherwise the flags are updated (from the pre-move
destination square), the piece reference is copied, the origin cleared and
the player toggled.  No legality re-check happens here. -/
def executeMove (g : ChessGame) (move : String) : ChessGame :=
  if castleTok move then executeCastling g move
  else
    match parseMove g.board g.currentPlayer move with
    | Except.error _ => { g with status := "Error parsing move" }
    | Except.ok (fromRow, fromCol, toRow, toCol) =>
      let b1 := trackPieceMovement g.board fromRow fromCol toRow toCol
      let b2 := setSq b1 toRow toCol (getSq b1 fromRow fromCol)
      let b3 := setSq b2 fromRow fromCol none
      { g with board := b3, currentPlayer := !g.currentPlayer }

/-- Folding executeMove over a token list. -/
def execMoves (g : ChessGame) (ms : List String) : ChessGame :=
  ms.foldl executeMove g

/-- Every token of the list is accepted by isValidMove in the state where it
is executed. -/
def validSeq : ChessGame → List String → Bool
  | _, [] => true
  | g, m :: ms => isValidMove g m && validSeq (executeMove g m) ms

/-- Pointwise monotone ordering of the six castling flags. -/
def flagsLe (b b2 : Board) : Prop :=
  (b.WhiteKingMoved = true → b2.WhiteKingMoved = true) ∧
  (b.WhiteRookKingsideMoved = true → b2.WhiteRookKingsideMoved = true) ∧
  (b.WhiteRookQueensideMoved = true → b2.WhiteRookQueensideMoved = true) ∧
  (b.BlackKingMoved = true → b2.BlackKingMoved = true) ∧
  (b.BlackRookKingsideMoved = true → b2.BlackRookKingsideMoved = true) ∧
  (b.BlackRookQueensideMoved = true → b2.BlackRookQueensideMoved = true)

/-- A board whose only pieces are two white knights, on b1 (array square
(7,1)) and on d2 (array square (6,3)), for the disambiguation claim. -/
def knightsBoard : Board :=
  { Squares := fun i j =>
      if (i.val = 7 ∧ j.val = 1) ∨ (i.val = 6 ∧ j.val = 3) then
        some { White := true, ptype := PieceType.Knight }
      else none
    WhiteKingMoved := false
    WhiteRookKingsideMoved := false
    WhiteRookQueensideMoved := false
    BlackKingMoved := false
    BlackRookKingsideMoved := false
    BlackRookQueensideMoved := false }

/-- Game state around knightsBoard, White to move. -/
def knightsGame : ChessGame :=
  { board := knightsBoard, currentPlayer := true, status := "" }

instance : DecidableEq (Except String (Int × Int × Int × Int)) := fun a b =>
  match a, b with
  | Except.error e, Except.error f =>
    if h : e = f then isTrue (by rw [h]) else isFalse (by simp [h])
  | Except.ok x, Except.ok y =>
    if h : x = y then isTrue (by rw [h]) else isFalse (by simp [h])
  | Except.error _, Except.ok _ => isFalse (fun h => Except.noConfusion h)
  | Except.ok _, Except.error _ => isFalse (fun h => Except.noConfusion h)

theorem setSq_WhiteKingMoved (b : Board) (r c : Int) (p : Option Piece) :
    (setSq b r c p).WhiteKingMoved = b.WhiteKingMoved := by
  unfold setSq; split <;> rfl

theorem setSq_WhiteRookKingsideMoved (b : Board) (r c : Int) (p : Option Piece) :
    (setSq b r c p).WhiteRookKingsideMoved = b.WhiteRookKingsideMoved := by
  unfold setSq; split <;> rfl

theorem setSq_WhiteRookQueensideMoved (b : Board) (r c : Int) (p : Option Piece) :
    (setSq b r c p).WhiteRookQueensideMoved = b.WhiteRookQueensideMoved := by
  unfold setSq; split <;> rfl

theorem setSq_BlackKingMoved (b : Board) (r c : Int) (p : Option Piece) :
    (setSq b r c p).BlackKingMoved = b.BlackKingMoved := by
  unfold setSq; split <;> rfl

theorem setSq_BlackRookKingsideMoved (b : Board) (r c : Int) (p : Option Piece) :
    (setSq b r c p).BlackRookKingsideMoved = b.BlackRookKingsideMoved := by
  unfold setSq; split <;> rfl

theorem setSq_BlackRookQueensideMoved (b : Board) (r c : Int) (p : Option Piece) :
    (setSq b r c p).BlackRookQueensideMoved = b.BlackRookQueensideMoved := by
  unfold setSq; split <;> rfl

theorem flagsLe_refl (b : Board) : flagsLe b b :=
  ⟨fun h => h, fun h => h, fun h => h, fun h => h, fun h => h, fun h => h⟩

theorem trackPieceMovement_flagsLe (b : Board) (fr fc tr tc : Int) :
    flagsLe b (trackPieceMovement b fr fc tr tc) := by
  unfold trackPieceMovement
  cases hsq : getSq b tr tc with
  | none => exact flagsLe_refl b
  | some piece =>
    dsimp only
    split_ifs <;> simp_all [flagsLe]

theorem executeCastling_flagsLe (g : ChessGame) (m : String) :
    flagsLe g.board (executeCastling g m).board := by
  unfold executeCastling
  dsimp only
  split_ifs <;>
    simp_all [flagsLe, setSq_WhiteKingMoved, setSq_WhiteRookKingsideMoved,
      setSq_WhiteRookQueensideMoved, setSq_BlackKingMoved,
      setSq_BlackRookKingsideMoved, setSq_BlackRookQueensideMoved]

theorem executeMove_flagsLe (g : ChessGame) (m : String) :
    flagsLe g.board (executeMove g m).board := by
  unfold executeMove
  by_cases hc : castleTok m
  · simp only [hc, if_true]
    exact executeCastling_flagsLe g m
  · simp only [hc, Bool.false_eq_true, if_false]
    cases hp : parseMove g.board g.currentPlayer m with
    | error e => exact flagsLe_refl g.board
    | ok q =>
      obtain ⟨fr, fc, tr, tc⟩ := q
      dsimp only
      have h := trackPieceMovement_flagsLe g.board fr fc tr tc
      simp_all [flagsLe, setSq_WhiteKingMoved, setSq_WhiteRookKingsideMoved,
        setSq_WhiteRookQueensideMoved, setSq_BlackKingMoved,
        setSq_BlackRookKingsideMoved, setSq_BlackRookQueensideMoved]

theorem executeCastling_toggle (g : ChessGame) (m : String)
    (h : isValidCastling g.board g.currentPlayer m = true) :
    (executeCastling g m).currentPlayer = !g.currentPlayer := by
  unfold executeCastling
  unfold isValidCastling at h
  dsimp only at h ⊢
  split_ifs at h ⊢ <;> simp_all

theorem executeCastling_fail (g : ChessGame) (m : String)
    (h : isValidCastling g.board g.currentPlayer m = false) :
    (executeCastling g m).board = g.board ∧
    (executeCastling g m).currentPlayer = g.currentPlayer ∧
    (∀ g2 : ChessGame, g2.board = g.board → g2.currentPlayer = g.currentPlayer →
      (executeCastling g2 m).status = (executeCastling g m).status) := by
  unfold isValidCastling at h
  refine ⟨?_, ?_, ?_⟩
  · unfold executeCastling
    dsimp only at h ⊢
    split_ifs at h ⊢ <;> simp_all
  · unfold executeCastling
    dsimp only at h ⊢
    split_ifs at h ⊢ <;> simp_all
  · intro g2 hb hp
    unfold executeCastling
    rw [hb, hp]
    dsimp only at h ⊢
    split_ifs at h ⊢ <;> simp_all

theorem executeMove_parse_err (g : ChessGame) (m : String)
    (h1 : castleTok m = false)
    (h2 : isErr (parseMove g.board g.currentPlayer m) = true) :
    executeMove g m = { g with status := "Error parsing move" } := by
  unfold executeMove
  simp only [h1, Bool.false_eq_true, if_false]
  cases hp : parseMove g.board g.currentPlayer m with
  | error e => rfl
  | ok q => rw [hp] at h2; simp [isErr] at h2

theorem executeMove_toggle (g : ChessGame) (m : String)
    (h : isValidMove g m = true) :
    (executeMove g m).currentPlayer = !g.currentPlayer := by
  unfold isValidMove at h
  unfold executeMove
  by_cases hc : castleTok m
  · simp only [hc, if_true] at h ⊢
    exact executeCastling_toggle g m h
  · simp only [hc, Bool.false_eq_true, if_false] at h ⊢
    cases hp : parseMove g.board g.currentPlayer m with
    | error e => rw [hp] at h; simp at h
    | ok q =>
      obtain ⟨fr, fc, tr, tc⟩ := q
      rw [hp] at h

theorem execMoves_parity : ∀ (ms : List String) (g : ChessGame),
    validSeq g ms = true →
    (execMoves g ms).currentPlayer =
      (if ms.length % 2 = 0 then g.currentPlayer else !g.currentPlayer) := by
  intro ms
  induction ms with
  | nil => intro g _; rfl
  | cons m rest ih =>
    intro g h
    unfold validSeq at h
    rw [Bool.and_eq_true] at h
    obtain ⟨h1, h2⟩ := h
    have step := executeMove_toggle g m h1
    have tail := ih (executeMove g m) h2
    unfold execMoves at tail ⊢
    rw [List.foldl_cons, tail, step]
    have hlen : (m :: rest).length = rest.length + 1 := rfl
    by_cases hpar : rest.length % 2 = 0
    · have h2' : ¬ ((m :: rest).length % 2 = 0) := by rw [hlen]; omega
      rw [if_pos hpar, if_neg h2']
    · have h2' : (m :: rest).length % 2 = 0 := by rw [hlen]; omega
      rw [if_neg hpar, if_pos h2']
      exact Bool.not_not g.currentPlayer

/-- C1 (code_bug evidence).  Castling is indeed rejected from the initial
position for both sides; but the claimed six-token sequence fails at its
very first token: isValidMove rejects "e4" (short-notation parse error),
and even after executeMove is applied to all six tokens "e4" "e5" "Nf3"
"Nf6" "Bc4" "Bc5", isValidMove "O-O" is still false for White because the
f1 square (array [7][5]) is still occupied and the white king never
obtained a clear path: the long tokens move the pieces found at row
rank-1 without the array flip and "Nf3" resolves to the b1 knight. -/
theorem c1_castling_gating_eval :
    isValidMove NewChessGame "O-O" = false ∧
    isValidMove NewChessGame "O-O-O" = false ∧
    isValidMove { NewChessGame with currentPlayer := false } "O-O" = false ∧
    isValidMove { NewChessGame with currentPlayer := false } "O-O-O" = false ∧
    isValidMove NewChessGame "e4" = false ∧
    (let g := executeMove (executeMove (executeMove (executeMove (executeMove
        (executeMove NewChessGame "e4") "e5") "Nf3") "Nf6") "Bc4") "Bc5"
     isValidMove g "O-O" = false ∧
     getSq g.board 7 4 = some { White := true, ptype := PieceType.King } ∧
     (getSq g.board 7 5).isSome = true) := by
  decide

/-- C2 (code_bug evidence).  The two parse paths do NOT share a coordinate
convention for destination squares: for the destination text "e4", the
long-notation path (token "e2e4") decodes the destination to array row 3
(rank - 1, no flip) while the short-notation path (token "Ne4", evaluated
on the initial board) decodes the same text to array row 4
(7 - (rank - 1)); columns agree. -/
theorem c2_coordinate_convention_eval :
    parseMove NewChessGame.board NewChessGame.currentPlayer "e2e4" = Except.ok ((1 : Int), 4, 3, 4) ∧
    parseShortNotation NewChessGame.board NewChessGame.currentPlayer "Ne4" = Except.ok ((7 : Int), 1, 4, 4) ∧
    ((3 : Int), (4 : Int)) ≠ ((4 : Int), (4 : Int)) := by
  decide

/-- C3 (code_bug evidence).  executeMove applied to "e1d1" from the initial
position moves the piece at the resolved origin (array (0,4), the black
king) onto the destination (0,3), clears the origin and toggles the player,
but leaves BlackKingMoved false although a King just moved: executeMove
calls trackPieceMovement before mutating the board, so the flag update
inspects the captured piece at the destination (here the black queen), not
the moving piece. -/
theorem c3_executeMove_flags_eval :
    getSq NewChessGame.board 0 4 = some { White := false, ptype := PieceType.King } ∧
    (let g := executeMove NewChessGame "e1d1"
     getSq g.board 0 3 = some { White := false, ptype := PieceType.King } ∧
     getSq g.board 0 4 = none ∧
     g.currentPlayer = false ∧
     g.board.BlackKingMoved = false) := by
  decide

/-- C8 (code_bug evidence).  On a board whose only white knights stand on
b1 (array (7,1)) and d2 (array (6,3)), the file hint of "Nbd3" does select
the b-file knight, but the rank hint of "N1d3" does NOT select the knight
on rank 1: canDisambiguate compares the digit as rank - 1 = 0 against the
array rows 6 and 7, matches neither candidate, and findPiece falls back to
the first candidate in scan order, the d2 knight (6,3). -/
theorem c8_disambiguation_eval :
    getSq knightsBoard 7 1 = some { White := true, ptype := PieceType.Knight } ∧
    getSq knightsBoard 6 3 = some { White := true, ptype := PieceType.Knight } ∧
    findPiece knightsGame.board PieceType.Knight true "Nbd3" = ((7 : Int), 1, true) ∧
    findPiece knightsGame.board PieceType.Knight true "N1d3" = ((6 : Int), 3, true) ∧
    parseShortNotation knightsGame.board knightsGame.currentPlayer "Nbd3" = Except.ok ((7 : Int), 1, 5, 3) ∧
    parseShortNotation knightsGame.board knightsGame.currentPlayer "N1d3" = Except.ok ((6 : Int), 3, 5, 3) := by
  decide

/-- C9 (code_bug evidence).  In the initial position the white pawn stands
on e2 (array (6,4)), e3 (array (5,4)) is empty and White is to move, yet
isValidMove "e2e4" is false: the long-notation parser resolves the origin
of "e2e4" to array square (1,4) (rank - 1 without the flip), which holds
the BLACK e7 pawn, so the turn check fails.  With a piece placed on e3 the
result is also false, as the claim demands, but for the same wrong
reason. -/
theorem c9_pawn_two_square_eval :
    getSq NewChessGame.board 6 4 = some { White := true, ptype := PieceType.Pawn } ∧
    getSq NewChessGame.board 5 4 = none ∧
    NewChessGame.currentPlayer = true ∧
    isValidMove NewChessGame "e2e4" = false ∧
    isValidMove
      { NewChessGame with
        board := setSq NewChessGame.board 5 4 (some { White := true, ptype := PieceType.Knight }) }
      "e2e4" = false := by
  decide

/-- C4.  Turn alternation: the game starts with White to move; a move
accepted by isValidMove and applied by executeMove toggles currentPlayer
exactly once; a parse failure inside executeMove and a failed defensive
castling re-check inside executeCastling leave currentPlayer unchanged
(isValidMove itself is a pure Bool function of the state and mutates
nothing by construction); consequently, after any validated-and-executed
token sequence from the initial game, the active colour is White exactly
when the number of executed moves is even. -/
theorem c4_turn_alternation (g : ChessGame) (m : String) (ms : List String) :
    NewChessGame.currentPlayer = true ∧
    (isValidMove g m = true → (executeMove g m).currentPlayer = !g.currentPlayer) ∧
    (castleTok m = false → isErr (parseMove g.board g.currentPlayer m) = true →
      (executeMove g m).currentPlayer = g.currentPlayer) ∧
    (isValidCastling g.board g.currentPlayer m = false →
      (executeCastling g m).currentPlayer = g.currentPlayer) ∧
    (validSeq NewChessGame ms = true →
      (execMoves NewChessGame ms).currentPlayer = decide (ms.length % 2 = 0)) := by
  refine ⟨rfl, executeMove_toggle g m, ?_, ?_, ?_⟩
  · intro h1 h2
    rw [executeMove_parse_err g m h1 h2]
  · intro h
    exact (executeCastling_fail g m h).2.1
  · intro h
    rw [execMoves_parity ms NewChessGame h]
    by_cases hpar : ms.length % 2 = 0 <;> simp [hpar, NewChessGame]

/-- Witness for C4 at concrete inputs: the accepted token "e7e5" toggles the
player; the malformed token "zz" and the initially-invalid castling token
"O-O" leave the player unchanged; the two-token validated sequence
["e7e5", "e2e4"] returns the turn to White. -/
theorem c4_turn_alternation_witness :
    (executeMove NewChessGame "e7e5").currentPlayer = !NewChessGame.currentPlayer ∧
    (executeMove NewChessGame "zz").currentPlayer = NewChessGame.currentPlayer ∧
    (executeCastling NewChessGame "O-O").currentPlayer = NewChessGame.currentPlayer ∧
    (execMoves NewChessGame ["e7e5", "e2e4"]).currentPlayer =
      decide ((["e7e5", "e2e4"] : List String).length % 2 = 0) :=
  ⟨(c4_turn_alternation NewChessGame "e7e5" []).2.1 (by decide),
   (c4_turn_alternation NewChessGame "zz" []).2.2.1 (by decide) (by decide),
   (c4_turn_alternation NewChessGame "O-O" []).2.2.2.1 (by decide),
   (c4_turn_alternation NewChessGame "x" ["e7e5", "e2e4"]).2.2.2.2 (by decide)⟩

/-- C5.  Failure atomicity and idempotent rejection: on the two failing
paths of executeMove (a non-castling token that fails to parse, and a
castling token whose defensive legality re-check fails) the board (all 64
squares and all six castling flags) and currentPlayer are left exactly as
before the call, and a second call with the same token leaves them
unchanged again and produces the same status message as the first call. -/
theorem c5_failure_atomicity (g : ChessGame) (m : String)
    (h : (castleTok m = false ∧ isErr (parseMove g.board g.currentPlayer m) = true) ∨
         (castleTok m = true ∧ isValidCastling g.board g.currentPlayer m = false)) :
    (executeMove g m).board = g.board ∧
    (executeMove g m).currentPlayer = g.currentPlayer ∧
    (executeMove (executeMove g m) m).board = g.board ∧
    (executeMove (executeMove g m) m).currentPlayer = g.currentPlayer ∧
    (executeMove (executeMove g m) m).status = (executeMove g m).status := by
  rcases h with ⟨h1, h2⟩ | ⟨h1, h2⟩
  · have e1 := executeMove_parse_err g m h1 h2
    have e2 := executeMove_parse_err { g with status := "Error parsing move" } m h1 h2
    rw [e1, e2]
    exact ⟨rfl, rfl, rfl, rfl, rfl⟩
  · have hcast : ∀ g2 : ChessGame, executeMove g2 m = executeCastling g2 m := by
      intro g2
      unfold executeMove
      rw [h1]
      rfl
    obtain ⟨hb, hp, hs⟩ := executeCastling_fail g m h2
    have h2' : isValidCastling (executeCastling g m).board
        (executeCastling g m).currentPlayer m = false := by
      rw [hb, hp]; exact h2
    obtain ⟨hb2, hp2, _⟩ := executeCastling_fail (executeCastling g m) m h2'
    rw [hcast g, hcast (executeCastling g m)]
    exact ⟨hb, hp, by rw [hb2, hb], by rw [hp2, hp], hs (executeCastling g m) hb hp⟩

/-- Witness for C5: the malformed token "zz" from the initial position. -/
theorem c5_failure_atomicity_witness :
    (executeMove NewChessGame "zz").board = NewChessGame.board ∧
    (executeMove NewChessGame "zz").currentPlayer = NewChessGame.currentPlayer ∧
    (executeMove (executeMove NewChessGame "zz") "zz").board = NewChessGame.board ∧
    (executeMove (executeMove NewChessGame "zz") "zz").currentPlayer =
      NewChessGame.currentPlayer ∧
    (executeMove (executeMove NewChessGame "zz") "zz").status =
      (executeMove NewChessGame "zz").status :=
  c5_failure_atomicity NewChessGame "zz" (Or.inl ⟨by decide, by decide⟩)

/-- C6.  Monotonicity of the six castling-rights flags: both state-mutating
operations, executeMove (which subsumes the castling path) and
executeCastling, can only turn flags from false to true, never back
(isValidMove is a pure Bool function of the state and by construction
changes no flag).  This holds for every game state, hence in particular for
every reachable one. -/
theorem c6_flag_monotonicity (g : ChessGame) (m : String) :
    flagsLe g.board (executeMove g m).board ∧ flagsLe g.board (executeCastling g m).board :=
  ⟨executeMove_flagsLe g m, executeCastling_flagsLe g m⟩

/-- Witness for C6: starting with WhiteKingMoved already true, it is still
true after executeMove "e7e5" and after executeCastling "O-O". -/
theorem c6_flag_monotonicity_witness :
    (executeMove
      { NewChessGame with board := { NewChessGame.board with WhiteKingMoved := true } }
      "e7e5").board.WhiteKingMoved = true ∧
    (executeCastling
      { NewChessGame with board := { NewChessGame.board with WhiteKingMoved := true } }
      "O-O").board.WhiteKingMoved = true :=
  ⟨(c6_flag_monotonicity
      { NewChessGame with board := { NewChessGame.board with WhiteKingMoved := true } }
      "e7e5").1.1 rfl,
   (c6_flag_monotonicity
      { NewChessGame with board := { NewChessGame.board with WhiteKingMoved := true } }
      "O-O").2.1 rfl⟩

theorem foldl_if_append {α β : Type} (p : β → Bool) (f : α → β) :
    ∀ (l : List α) (acc : List β),
      l.foldl (fun a x => if p (f x) then a ++ [f x] else a) acc
        = acc ++ (l.map f).filter p := by
  intro l
  induction l with
  | nil => intro acc; simp
  | cons x xs ih =>
    intro acc
    rw [List.foldl_cons, List.map_cons, List.filter_cons, ih]
    by_cases h : p (f x) = true
    · rw [if_pos h, if_pos h, List.append_assoc]
      rfl
    · rw [if_neg h, if_neg h]

theorem foldl_append_flatMap {α β : Type} (f : α → List β) :
    ∀ (l : List α) (acc : List β),
      l.foldl (fun a x => a ++ f x) acc = acc ++ l.flatMap f := by
  intro l
  induction l with
  | nil => intro acc; simp
  | cons x xs ih =>
    intro acc
    rw [List.foldl_cons, ih, List.flatMap_cons, List.append_assoc]

theorem filter_flatMap {α β : Type} (l : List α) (f : α → List β) (p : β → Bool) :
    (l.flatMap f).filter p = l.flatMap fun a => (f a).filter p := by
  induction l with
  | nil => rfl
  | cons x xs ih => rw [List.flatMap_cons, List.flatMap_cons, List.filter_append, ih]

theorem findCandidates_eq (b : Board) (pt : PieceType) (w : Bool) :
    findCandidates b pt w = candidatesSpec b pt w := by
  unfold findCandidates candidatesSpec scanSquares
  rw [show (fun (acc : List (Int × Int)) (i : Nat) =>
        (List.range 8).foldl
          (fun acc2 (j : Nat) =>
            if pieceAt b pt w ((i : Int), (j : Int)) then acc2 ++ [((i : Int), (j : Int))]
            else acc2) acc)
      = fun (acc : List (Int × Int)) (i : Nat) =>
          acc ++ ((List.range 8).map fun (j : Nat) => ((i : Int), (j : Int))).filter
            (pieceAt b pt w)
    from funext fun acc => funext fun i =>
      foldl_if_append (pieceAt b pt w) (fun (j : Nat) => ((i : Int), (j : Int)))
        (List.range 8) acc]
  rw [foldl_append_flatMap
    (fun (i : Nat) =>
      ((List.range 8).map fun (j : Nat) => ((i : Int), (j : Int))).filter (pieceAt b pt w))
    (List.range 8) []]
  rw [filter_flatMap (List.range 8)
    (fun (i : Nat) => (List.range 8).map fun (j : Nat) => ((i : Int), (j : Int)))
    (pieceAt b pt w)]
  rw [List.nil_append]

theorem mem_scanSquares_bounds (rc : Int × Int) (h : rc ∈ scanSquares) :
    0 ≤ rc.1 ∧ rc.1 ≤ 7 ∧ 0 ≤ rc.2 ∧ rc.2 ≤ 7 := by
  unfold scanSquares at h
  simp only [List.mem_flatMap, List.mem_map, List.mem_range] at h
  obtain ⟨i, hi, j, hj, heq⟩ := h
  subst heq
  refine ⟨?_, ?_, ?_, ?_⟩ <;> simp <;> omega

theorem mem_findCandidates_bounds {b : Board} {pt : PieceType} {w : Bool}
    (rc : Int × Int) (h : rc ∈ findCandidates b pt w) :
    0 ≤ rc.1 ∧ rc.1 ≤ 7 ∧ 0 ≤ rc.2 ∧ rc.2 ≤ 7 := by
  rw [findCandidates_eq] at h
  exact mem_scanSquares_bounds rc (List.mem_of_mem_filter h)

theorem findPiece_bounds {b : Board} {pt : PieceType} {w : Bool} {m : String} {r c : Int}
    (h : findPiece b pt w m = (r, c, true)) :
    0 ≤ r ∧ r ≤ 7 ∧ 0 ≤ c ∧ c ≤ 7 := by
  unfold findPiece at h
  revert h
  cases hc : findCandidates b pt w with
  | nil => intro h; simp at h
  | cons c0 rest =>
    intro h
    have hmem : ∀ x ∈ c0 :: rest, 0 ≤ x.1 ∧ x.1 ≤ 7 ∧ 0 ≤ x.2 ∧ x.2 ≤ 7 := by
      intro x hx
      apply mem_findCandidates_bounds x
      rw [hc]
      exact hx
    revert h
    dsimp only
    by_cases hre : rest.isEmpty
    · rw [if_pos hre]
      intro h
      simp only [Prod.mk.injEq] at h
      rw [← h.1, ← h.2.1]
      exact hmem c0 (List.mem_cons_self c0 rest)
    · rw [if_neg hre]
      cases hf : (c0 :: rest).find? (fun cand => canDisambiguate cand.1 cand.2 m) with
      | some cand =>
        intro h
        simp only [Prod.mk.injEq] at h
        rw [← h.1, ← h.2.1]
        exact hmem cand (List.mem_of_find?_eq_some hf)
      | none =>
        intro h
        simp only [Prod.mk.injEq] at h
        rw [← h.1, ← h.2.1]
        exact hmem c0 (List.mem_cons_self c0 rest)

theorem parseShort_bounds (b : Board) (p : Bool) (m : String) (fr fc tr tc : Int)
    (h1 : castleTok m = false)
    (h2 : parseShortNotation b p m = Except.ok (fr, fc, tr, tc)) :
    (0 ≤ fr ∧ fr ≤ 7) ∧ (0 ≤ fc ∧ fc ≤ 7) ∧ (0 ≤ tr ∧ tr ≤ 7) ∧ (0 ≤ tc ∧ tc ≤ 7) := by
  unfold castleTok at h1
  rw [decide_eq_false_iff_not] at h1
  have hc1 : ¬ (m = "O-O" ∨ m = "0-0") := fun hx =>
    h1 (hx.elim Or.inl fun hy => Or.inr (Or.inl hy))
  have hc2 : ¬ (m = "O-O-O" ∨ m = "0-0-0") := fun hx =>
    h1 (hx.elim (fun hy => Or.inr (Or.inr (Or.inl hy))) fun hy => Or.inr (Or.inr (Or.inr hy)))
  unfold parseShortNotation at h2
  rw [if_neg hc1, if_neg hc2] at h2
  by_cases hlen : m.data.length < 2
  · rw [if_pos hlen] at h2
    exact absurd h2 (by simp)
  · rw [if_neg hlen] at h2
    revert h2
    split
    next fr0 fc0 fd0 hfp =>
    intro h2
    split at h2
    · exact absurd h2 (by simp)
    · next hfound =>
      have hfd : fd0 = true := by
        cases fd0
        · exact absurd rfl hfound
        · rfl
      rw [hfd] at hfp
      have hb := findPiece_bounds hfp
      split at h2
      · exact absurd h2 (by simp)
      · split at h2
        · exact absurd h2 (by simp)
        · split at h2
          · exact absurd h2 (by simp)
          · next hrange =>
            push_neg at hrange
            simp only [Except.ok.injEq, Prod.mk.injEq] at h2
            obtain ⟨e1, e2, e3, e4⟩ := h2
            obtain ⟨r1, r2, r3, r4⟩ := hrange
            obtain ⟨b1, b2, b3, b4⟩ := hb
            refine ⟨⟨?_, ?_⟩, ⟨?_, ?_⟩, ⟨?_, ?_⟩, ⟨?_, ?_⟩⟩ <;> omega

/-- C10.  Totality at the public interface: isValidMove and executeMove
index the square array only through (a) compile-time constant coordinates in
the castling paths, all visibly within 0..7, and (b) the four coordinates of
a successful parseMove result (castling tokens never reach parseMove: both
entry points intercept them first).  This theorem shows every successful
parse of a non-castling token, over every board, player and input string,
yields coordinates within [0,7], so no board access is out of range and a
malformed token only produces a false result or an error value, never an
out-of-range access. -/
theorem c10_parse_bounds (b : Board) (p : Bool) (m : String) (fr fc tr tc : Int)
    (h1 : castleTok m = false)
    (h2 : parseMove b p m = Except.ok (fr, fc, tr, tc)) :
    (0 ≤ fr ∧ fr ≤ 7) ∧ (0 ≤ fc ∧ fc ≤ 7) ∧ (0 ≤ tr ∧ tr ≤ 7) ∧ (0 ≤ tc ∧ tc ≤ 7) := by
  unfold parseMove at h2
  split at h2
  · split at h2
    · next hcond =>
      simp only [Except.ok.injEq, Prod.mk.injEq] at h2
      obtain ⟨e1, e2, e3, e4⟩ := h2
      obtain ⟨a1, a2, a3, a4, a5, a6, a7, a8⟩ := hcond
      refine ⟨⟨?_, ?_⟩, ⟨?_, ?_⟩, ⟨?_, ?_⟩, ⟨?_, ?_⟩⟩ <;> omega
    · exact parseShort_bounds b p m fr fc tr tc h1 h2
  · exact parseShort_bounds b p m fr fc tr tc h1 h2

/-- Witness for C10: the token "e2e4" parses to (1, 4, 3, 4), all in
range. -/
theorem c10_parse_bounds_witness :
    ((0 : Int) ≤ 1 ∧ (1 : Int) ≤ 7) ∧ ((0 : Int) ≤ 4 ∧ (4 : Int) ≤ 7) ∧
    ((0 : Int) ≤ 3 ∧ (3 : Int) ≤ 7) ∧ ((0 : Int) ≤ 4 ∧ (4 : Int) ≤ 7) :=
  c10_parse_bounds NewChessGame.board NewChessGame.currentPlayer "e2e4" 1 4 3 4
    (by decide) (by decide)

/-- C7.  The findPiece contract: with the candidate list taken as the
row-major filter of all 64 squares by (kind, colour) — proved equal to the
list the loop builds — zero candidates give not-found, a unique candidate is
returned, and with several candidates the first one (in scan order) passing
the disambiguation test is returned, falling back to the first candidate
overall when none passes.  The disambiguation test on the hint character
(index 1 of the move string): a file letter must equal the candidate column,
a rank digit must equal the candidate array row (the rank - 1 convention of
spec section 3; see C8 for where this convention clashes with the board
layout), and a missing hint (string shorter than 2) matches any
candidate. -/
theorem c7_findPiece_contract (b : Board) (pt : PieceType) (w : Bool) (m : String) :
    (candidatesSpec b pt w = [] → findPiece b pt w m = (0, 0, false)) ∧
    (∀ r c : Int, candidatesSpec b pt w = [(r, c)] → findPiece b pt w m = (r, c, true)) ∧
    (∀ (r c : Int) (rest : List (Int × Int)), candidatesSpec b pt w = (r, c) :: rest →
      rest ≠ [] →
      findPiece b pt w m =
        match (candidatesSpec b pt w).find? (fun cand => canDisambiguate cand.1 cand.2 m) with
        | some cand => (cand.1, cand.2, true)
        | none => (r, c, true)) ∧
    (∀ r c : Int, 2 ≤ m.data.length → 'a' ≤ m.data.getD 1 ' ' → m.data.getD 1 ' ' ≤ 'h' →
      (canDisambiguate r c m = true ↔ charSub (m.data.getD 1 ' ') 'a' = c)) ∧
    (∀ r c : Int, 2 ≤ m.data.length → '1' ≤ m.data.getD 1 ' ' → m.data.getD 1 ' ' ≤ '8' →
      (canDisambiguate r c m = true ↔ charSub (m.data.getD 1 ' ') '1' = r)) ∧
    (∀ r c : Int, m.data.length < 2 → canDisambiguate r c m = true) := by
  refine ⟨?_, ?_, ?_, ?_, ?_, ?_⟩
  · intro hnil
    unfold findPiece
    rw [findCandidates_eq, hnil]
  · intro r c hone
    unfold findPiece
    rw [findCandidates_eq, hone]
    rfl
  · intro r c rest hcons hne
    unfold findPiece
    rw [findCandidates_eq, hcons]
    have hre : rest.isEmpty = false := by
      cases rest with
      | nil => exact absurd rfl hne
      | cons y ys => rfl
    simp only [hre, Bool.false_eq_true, if_false]
  · intro r c hl hge hle
    unfold canDisambiguate
    rw [if_pos hl, if_pos ⟨hge, hle⟩]
    exact ⟨of_decide_eq_true, fun hh => decide_eq_true hh⟩
  · intro r c hl hge hle
    unfold canDisambiguate
    rw [if_pos hl]
    have hnotfile : ¬ ('a' ≤ m.data.getD 1 ' ' ∧ m.data.getD 1 ' ' ≤ 'h') := by
      intro hcontra
      have hx : (49 : Nat) ≤ (m.data.getD 1 ' ').toNat := hge
      have hy : (m.data.getD 1 ' ').toNat ≤ 56 := hle
      have hz : (97 : Nat) ≤ (m.data.getD 1 ' ').toNat := hcontra.1
      omega
    rw [if_neg hnotfile, if_pos ⟨hge, hle⟩]
    exact ⟨of_decide_eq_true, fun hh => decide_eq_true hh⟩
  · intro r c hl
    unfold canDisambiguate
    rw [if_neg (by omega : ¬ 2 ≤ m.data.length)]

/-- Witness for C7: the initial position has exactly one white queen, at
array square (7, 3), and findPiece returns it. -/
theorem c7_findPiece_contract_witness :
    findPiece NewChessGame.board PieceType.Queen true "Qd4" = ((7 : Int), 3, true) :=
  (c7_findPiece_contract NewChessGame.board PieceType.Queen true "Qd4").2.1 7 3 (by decide)

end Chess
